import Mathlib

/-!
Verification of the Telemorph-Prime Kafka consumer test script
(`src/kafka-consumer-test.py`) against its natural-language specification.

The script is shallowly embedded: decoded JSON payloads become the inductive
type `JValue`; the dynamically-typed Python operations the analyzers perform
on a payload (`key in v`, `v[key]`, iteration, `v.get(key, default)`,
`len(v)`, `v[:n]`) become `Except`-valued functions that reproduce Python's
success and failure behaviour on every runtime type; the bounded consumption
loop of `consume_messages` becomes a step function over an explicit consumer
state driven by a finite list of source events.  Console output carries the
script's observable results, so each analyzer returns the structured facts
the script prints (group sizes, extracted names, truncated identifiers).
-/

namespace Telemorph

/-- A decoded JSON value, as produced by `json.loads` (line 34 of the
script).  JSON numbers are modelled as integers; no claim depends on
fractional values. -/
inductive JValue where
  | null
  | bool (b : Bool)
  | num (n : Int)
  | str (s : String)
  | arr (xs : List JValue)
  | obj (kvs : List (String × JValue))

/-- The Python runtime errors the analyzers can raise, and the
deserializer's decode failure.  Python attaches messages to these; only the
kind matters here. -/
inductive PyErr where
  | typeError
  | keyError
  | attrError
  | valueError
deriving DecidableEq

/-- First-match association lookup: Python `dict` access for objects built
by `json.loads` (duplicate keys are already collapsed by the decoder). -/
def jlookup : List (String × JValue) → String → Option JValue
  | [], _ => none
  | (k, v) :: rest, key => if k = key then some v else jlookup rest key

/-- Whether `pat` occurs as a substring of `s`: Python `pat in s` for
strings.  `splitOn` yields more than one piece exactly when a non-empty
pattern occurs; the empty pattern is always contained. -/
def strHasSub (s pat : String) : Bool :=
  pat == "" || (s.splitOn pat).length != 1

/-- Python `==` between a string and a decoded JSON value: true only for an
equal string (a `str` never equals a list, dict, number, bool or `None`). -/
def isStrEq (v : JValue) (key : String) : Bool :=
  match v with
  | .str s => s == key
  | _ => false

/-- Python `key in v` for a string `key`: key test on a dict, membership on
a list, substring test on a string, `TypeError` on non-containers. -/
def pyContains (key : String) (v : JValue) : Except PyErr Bool :=
  match v with
  | .obj kvs => .ok (kvs.any (fun p => p.1 == key))
  | .arr xs => .ok (xs.any (fun x => isStrEq x key))
  | .str s => .ok (strHasSub s key)
  | _ => .error .typeError

/-- Python `v[key]` for a string `key`: dict lookup (`KeyError` when
absent); `TypeError` on every other runtime type (lists and strings only
accept integer indices). -/
def pyIndex (v : JValue) (key : String) : Except PyErr JValue :=
  match v with
  | .obj kvs =>
      match jlookup kvs key with
      | some x => .ok x
      | none => .error .keyError
  | _ => .error .typeError

/-- Python iteration `for x in v`: the elements of a list, the characters
of a string (as one-character strings), the keys of a dict; `TypeError`
otherwise. -/
def pyIter (v : JValue) : Except PyErr (List JValue) :=
  match v with
  | .arr xs => .ok xs
  | .str s => .ok (s.data.map (fun c => .str (String.mk [c])))
  | .obj kvs => .ok (kvs.map (fun p => .str p.1))
  | _ => .error .typeError

/-- Python `v.get(key, dflt)`: only dicts have `.get`; every other runtime
type raises `AttributeError`. -/
def pyGet (v : JValue) (key : String) (dflt : JValue) : Except PyErr JValue :=
  match v with
  | .obj kvs => .ok ((jlookup kvs key).getD dflt)
  | _ => .error .attrError

/-- Python `len(v)`: length of a list, string or dict; `TypeError`
otherwise. -/
def pyLen (v : JValue) : Except PyErr Nat :=
  match v with
  | .arr xs => .ok xs.length
  | .str s => .ok s.length
  | .obj kvs => .ok kvs.length
  | _ => .error .typeError

/-- Python `v[:n]`: a string or list slice never raises on those types;
dicts and scalars are not subscriptable by a slice. -/
def pySliceTo (v : JValue) (n : Nat) : Except PyErr JValue :=
  match v with
  | .str s => .ok (.str (s.take n))
  | .arr xs => .ok (.arr (xs.take n))
  | _ => .error .typeError

/-- Python `str()` as applied by an f-string.  Container rendering is
display-only and abbreviated here; no claim inspects it. -/
def pyToDisplay : JValue → String
  | .null => "None"
  | .bool true => "True"
  | .bool false => "False"
  | .num n => toString n
  | .str s => s
  | .arr _ => "<list>"
  | .obj _ => "<dict>"

/-- Concatenation of a list of lists, used to collect the analyzers'
per-group contributions in source order. -/
def catLists : List (List α) → List α
  | [] => []
  | l :: rest => l ++ catLists rest

/-! ## EnvelopeAnalyzer: `analyze_traces` (lines 66-79) -/

/-- The facts the script prints for one span record (lines 76-79): the
extracted name, the two identifiers after the `[:8]` slice, and the
rendered line, whose format string appends an ellipsis marker after each
truncated identifier. -/
structure SpanLine where
  name : JValue
  traceCut : JValue
  spanCut : JValue
  disp : String

/-- One span record, lines 76-79: `span.get('name', 'Unknown')`,
`span.get('traceId', 'Unknown')`, `span.get('spanId', 'Unknown')`, then the
f-string evaluates `trace_id[:8]` and `span_id[:8]` and renders the line. -/
def analyzeSpan (span : JValue) : Except PyErr SpanLine := do
  let name ← pyGet span "name" (.str "Unknown")
  let traceId ← pyGet span "traceId" (.str "Unknown")
  let spanId ← pyGet span "spanId" (.str "Unknown")
  let tc ← pySliceTo traceId 8
  let sc ← pySliceTo spanId 8
  .ok { name := name, traceCut := tc, spanCut := sc,
        disp := pyToDisplay name ++ " (trace: " ++ pyToDisplay tc ++
                "..., span: " ++ pyToDisplay sc ++ "...)" }

/-- The observable output of a trace analysis: the numbers printed by the
per-scope-group `Found N spans` lines, and the per-span lines, in source
order. -/
structure TraceAnalysis where
  found : List Nat
  lines : List SpanLine

/-- The span count a trace summary reports: the sum of the per-scope-group
`Found N spans` figures. -/
def TraceAnalysis.spanCount (t : TraceAnalysis) : Nat := t.found.sum

/-- The inner `for span in scope_span['spans']` loop (lines 75-79). -/
def spansWalk : List JValue → Except PyErr (List SpanLine)
  | [] => .ok []
  | sp :: rest => do
      let l ← analyzeSpan sp
      let ls ← spansWalk rest
      .ok (l :: ls)

/-- One scope-span group (lines 73-79): `if 'spans' in scope_span:`, then
`len(scope_span['spans'])` for the `Found N spans` line, then the span
loop.  An absent `spans` key contributes nothing. -/
def traceScopeStep (scope : JValue) : Except PyErr TraceAnalysis := do
  let c ← pyContains "spans" scope
  if c then
    let spansV ← pyIndex scope "spans"
    let n ← pyLen spansV
    let items ← pyIter spansV
    let ls ← spansWalk items
    .ok { found := [n], lines := ls }
  else
    .ok { found := [], lines := [] }

/-- The `for scope_span in resource_span['scopeSpans']` loop (line 72). -/
def traceScopesWalk : List JValue → Except PyErr TraceAnalysis
  | [] => .ok { found := [], lines := [] }
  | sc :: rest => do
      let a ← traceScopeStep sc
      let b ← traceScopesWalk rest
      .ok { found := a.found ++ b.found, lines := a.lines ++ b.lines }

/-- One resource-span group (lines 71-79): `if 'scopeSpans' in
resource_span:` guards the scope loop; an absent key contributes
nothing. -/
def traceResourceStep (rs : JValue) : Except PyErr TraceAnalysis := do
  let c ← pyContains "scopeSpans" rs
  if c then
    let sv ← pyIndex rs "scopeSpans"
    let scopes ← pyIter sv
    traceScopesWalk scopes
  else
    .ok { found := [], lines := [] }

/-- The `for resource_span in data['resourceSpans']` loop (line 70). -/
def traceResourcesWalk : List JValue → Except PyErr TraceAnalysis
  | [] => .ok { found := [], lines := [] }
  | r :: rest => do
      let a ← traceResourceStep r
      let b ← traceResourcesWalk rest
      .ok { found := a.found ++ b.found, lines := a.lines ++ b.lines }

/-- `TelemetryConsumer.analyze_traces` (lines 66-79): `if 'resourceSpans'
in data:` guards the whole walk; a payload without the key produces no
output at all. -/
def analyze_traces (data : JValue) : Except PyErr TraceAnalysis := do
  let c ← pyContains "resourceSpans" data
  if c then
    let rv ← pyIndex data "resourceSpans"
    let rss ← pyIter rv
    traceResourcesWalk rss
  else
    .ok { found := [], lines := [] }

/-! ## EnvelopeAnalyzer: `analyze_metrics` (lines 81-92) -/

/-- The observable output of a metrics analysis: the per-scope-group
`Found N metrics` figures and the extracted metric names (line 91,
`metric.get('name', 'Unknown')`). -/
structure MetricAnalysis where
  found : List Nat
  names : List JValue

/-- The metric count a metrics summary reports: the sum of the
per-scope-group `Found N metrics` figures. -/
def MetricAnalysis.metricCount (m : MetricAnalysis) : Nat := m.found.sum

/-- The inner `for metric in scope_metric['metrics']` loop (lines 90-92). -/
def metricsWalk : List JValue → Except PyErr (List JValue)
  | [] => .ok []
  | m :: rest => do
      let n ← pyGet m "name" (.str "Unknown")
      let ns ← metricsWalk rest
      .ok (n :: ns)

/-- One scope-metric group (lines 88-92), guarded by
`if 'metrics' in scope_metric:`. -/
def metricScopeStep (scope : JValue) : Except PyErr MetricAnalysis := do
  let c ← pyContains "metrics" scope
  if c then
    let mv ← pyIndex scope "metrics"
    let n ← pyLen mv
    let items ← pyIter mv
    let ns ← metricsWalk items
    .ok { found := [n], names := ns }
  else
    .ok { found := [], names := [] }

/-- The `for scope_metric in resource_metric['scopeMetrics']` loop
(line 87). -/
def metricScopesWalk : List JValue → Except PyErr MetricAnalysis
  | [] => .ok { found := [], names := [] }
  | sc :: rest => do
      let a ← metricScopeStep sc
      let b ← metricScopesWalk rest
      .ok { found := a.found ++ b.found, names := a.names ++ b.names }

/-- One resource-metric group (lines 85-92), guarded by
`if 'scopeMetrics' in resource_metric:`. -/
def metricResourceStep (rm : JValue) : Except PyErr MetricAnalysis := do
  let c ← pyContains "scopeMetrics" rm
  if c then
    let sv ← pyIndex rm "scopeMetrics"
    let scopes ← pyIter sv
    metricScopesWalk scopes
  else
    .ok { found := [], names := [] }

/-- The `for resource_metric in data['resourceMetrics']` loop (line 85). -/
def metricResourcesWalk : List JValue → Except PyErr MetricAnalysis
  | [] => .ok { found := [], names := [] }
  | r :: rest => do
      let a ← metricResourceStep r
      let b ← metricResourcesWalk rest
      .ok { found := a.found ++ b.found, names := a.names ++ b.names }

/-- `TelemetryConsumer.analyze_metrics` (lines 81-92). -/
def analyze_metrics (data : JValue) : Except PyErr MetricAnalysis := do
  let c ← pyContains "resourceMetrics" data
  if c then
    let rv ← pyIndex data "resourceMetrics"
    let rms ← pyIter rv
    metricResourcesWalk rms
  else
    .ok { found := [], names := [] }

/-! ## EnvelopeAnalyzer: `analyze_logs` (lines 94-106) -/

/-- The facts the script prints for one log record (lines 104-106):
severity text and the body's string value after the `[:50]` slice. -/
structure LogLine where
  severity : JValue
  bodyCut : JValue

/-- One log record, lines 104-106: `log_record.get('severityText',
'Unknown')`, then `log_record.get('body', {}).get('stringValue', 'No
message')`, then the f-string evaluates `body[:50]`. -/
def analyzeLogRecord (lr : JValue) : Except PyErr LogLine := do
  let sev ← pyGet lr "severityText" (.str "Unknown")
  let bodyV ← pyGet lr "body" (.obj [])
  let msg ← pyGet bodyV "stringValue" (.str "No message")
  let cut ← pySliceTo msg 50
  .ok { severity := sev, bodyCut := cut }

/-- The observable output of a logs analysis: the per-scope-group
`Found N log records` figures and the per-record lines. -/
structure LogAnalysis where
  found : List Nat
  lines : List LogLine

/-- The record count a logs summary reports. -/
def LogAnalysis.recordCount (l : LogAnalysis) : Nat := l.found.sum

/-- The inner `for log_record in scope_log['logRecords']` loop
(lines 103-106). -/
def logRecordsWalk : List JValue → Except PyErr (List LogLine)
  | [] => .ok []
  | lr :: rest => do
      let l ← analyzeLogRecord lr
      let ls ← logRecordsWalk rest
      .ok (l :: ls)

/-- One scope-log group (lines 101-106), guarded by
`if 'logRecords' in scope_log:`. -/
def logScopeStep (scope : JValue) : Except PyErr LogAnalysis := do
  let c ← pyContains "logRecords" scope
  if c then
    let lv ← pyIndex scope "logRecords"
    let n ← pyLen lv
    let items ← pyIter lv
    let ls ← logRecordsWalk items
    .ok { found := [n], lines := ls }
  else
    .ok { found := [], lines := [] }

/-- The `for scope_log in resource_log['scopeLogs']` loop (line 100). -/
def logScopesWalk : List JValue → Except PyErr LogAnalysis
  | [] => .ok { found := [], lines := [] }
  | sc :: rest => do
      let a ← logScopeStep sc
      let b ← logScopesWalk rest
      .ok { found := a.found ++ b.found, lines := a.lines ++ b.lines }

/-- One resource-log group (lines 98-106), guarded by
`if 'scopeLogs' in resource_log:`. -/
def logResourceStep (rl : JValue) : Except PyErr LogAnalysis := do
  let c ← pyContains "scopeLogs" rl
  if c then
    let sv ← pyIndex rl "scopeLogs"
    let scopes ← pyIter sv
    logScopesWalk scopes
  else
    .ok { found := [], lines := [] }

/-- The `for resource_log in data['resourceLogs']` loop (line 98). -/
def logResourcesWalk : List JValue → Except PyErr LogAnalysis
  | [] => .ok { found := [], lines := [] }
  | r :: rest => do
      let a ← logResourceStep r
      let b ← logResourcesWalk rest
      .ok { found := a.found ++ b.found, lines := a.lines ++ b.lines }

/-- `TelemetryConsumer.analyze_logs` (lines 94-106). -/
def analyze_logs (data : JValue) : Except PyErr LogAnalysis := do
  let c ← pyContains "resourceLogs" data
  if c then
    let rv ← pyIndex data "resourceLogs"
    let rls ← pyIter rv
    logResourcesWalk rls
  else
    .ok { found := [], lines := [] }

/-! ## The bounded consumption loop: `consume_messages` (lines 108-151)

`for message in self.consumer:` blocks until the broker delivers a record
and applies the value deserializer (line 34) inside the pull; the loop body
then checks elapsed time and the running count before accepting the
message.  The environment is modelled as a finite list of source events: a
delivered record (with the elapsed wall-clock time, in abstract ticks, at
which the pull returns), a `KeyboardInterrupt` raised during the blocking
pull, or a broker error raised by the iterator.  When the event list is
exhausted without a stop, the real iterator is still blocked inside the
pull — no `consumer_timeout_ms` is configured — so the run has not
terminated and no summary exists yet; this outcome is `none`. -/

/-- The raw bytes of a record's value, classified by what the line-34
deserializer `lambda x: json.loads(x.decode('utf-8')) if x else None` does
with them: empty/absent bytes give `None`, valid JSON gives its decoded
value, anything else makes `json.loads` raise. -/
inductive RawValue where
  | empty
  | jsonOf (v : JValue)
  | invalid

/-- The value deserializer installed at line 34.  Its exceptions are raised
inside the consumer iterator, i.e. inside the pull. -/
def value_deserializer : RawValue → Except PyErr (Option JValue)
  | .empty => .ok none
  | .jsonOf v => .ok (some v)
  | .invalid => .error .valueError

/-- A delivered record, reduced to the fields the loop's control flow
reads: the topic and the raw value.  Partition, offset, timestamp and
headers feed only `print_message_info` (lines 42-64), which changes no
state. -/
structure TMsg where
  topic : String
  raw : RawValue

/-- One interaction with the message source: a record delivered at elapsed
time `t`, a `KeyboardInterrupt` during the blocking pull, or a
`KafkaError` raised by the iterator. -/
inductive SrcEvent where
  | msg (t : Nat) (m : TMsg)
  | interrupt
  | srcErr

/-- Whether an event is a delivered record. -/
def SrcEvent.isMsg : SrcEvent → Bool
  | .msg _ _ => true
  | _ => false

/-- The two CLI-provided bounds (`max_messages`, `timeout`), parsed as
Python ints, so either may be zero or negative. -/
structure Config where
  maxMessages : Int
  timeout : Int

/-- How a consumption run stopped: the two bound checks (lines 122, 126),
the `except KeyboardInterrupt` handler (line 146), and the catch-all
`except Exception` handler (line 148), which receives broker errors,
deserializer failures and analysis errors alike. -/
inductive StopReason where
  | timeoutReached
  | maxMessagesReached
  | userInterrupt
  | errored
deriving DecidableEq

/-- The loop's mutable state: `self.message_counts`, the local
`message_count`, plus two observation fields that track what crossed the
loop's boundary — how many records the iterator has yielded (`pulled`) and
the running-count numbers of the messages handed to an analyzer
(`dispatched`, most recent first). -/
structure ConsumerState where
  counts : List (String × Nat)
  count : Nat
  pulled : Nat
  dispatched : List Nat
deriving DecidableEq

/-- Python truthiness of a decoded JSON value (`if message.value:` at
line 138): empty containers, the empty string, zero, `False` and `None`
are falsy. -/
def truthyV : JValue → Bool
  | .null => false
  | .bool b => b
  | .num n => n != 0
  | .str s => s != ""
  | .arr xs => !xs.isEmpty
  | .obj kvs => !kvs.isEmpty

/-- Line 130's `self.message_counts[message.topic] += 1`: increments the
entry when the topic is a key, and is `none` (a `KeyError`) otherwise.
The read raises before any mutation, so a failure leaves the dict
unchanged. -/
def incr : List (String × Nat) → String → Option (List (String × Nat))
  | [], _ => none
  | (k, n) :: rest, t =>
      if k = t then some ((k, n + 1) :: rest)
      else (incr rest t).map (fun r => (k, n) :: r)

/-- The dispatch at lines 139-144: the topic is compared against the three
literals; any other topic gets no analysis.  Only success or failure of
the analysis affects the loop. -/
def dispatchAnalysis (topic : String) (v : JValue) : Except PyErr Unit :=
  if topic = "otel.traces" then do
    let _ ← analyze_traces v
    .ok ()
  else if topic = "otel.metrics" then do
    let _ ← analyze_metrics v
    .ok ()
  else if topic = "otel.logs" then do
    let _ ← analyze_logs v
    .ok ()
  else .ok ()

/-- The outcome of handling one source event: continue looping, or stop
with a recorded reason. -/
inductive StepOut where
  | next (s : ConsumerState)
  | stop (s : ConsumerState) (r : StopReason)

/-- The state an outcome carries. -/
def StepOut.state : StepOut → ConsumerState
  | .next s => s
  | .stop s _ => s

/-- One iteration of the loop body (lines 121-144) together with the
handlers that surround it.  The pull happens first, so `pulled` is
incremented before any check; a deserializer failure propagates from the
pull into `except Exception`; then the timeout check (line 122, strict
`>`), the count check (line 126, `>=`), the accountant increment (KeyError
stops the run via the catch-all handler), the count increment, and the
guarded dispatch, whose exception also stops the run. -/
def stepEvent (cfg : Config) (s : ConsumerState) : SrcEvent → StepOut
  | .interrupt => .stop s .userInterrupt
  | .srcErr => .stop s .errored
  | .msg t m =>
      let s1 : ConsumerState := { s with pulled := s.pulled + 1 }
      match value_deserializer m.raw with
      | .error _ => .stop s1 .errored
      | .ok value =>
          if (t : Int) > cfg.timeout then .stop s1 .timeoutReached
          else if (s1.count : Int) ≥ cfg.maxMessages then
            .stop s1 .maxMessagesReached
          else
            match incr s1.counts m.topic with
            | none => .stop s1 .errored
            | some counts1 =>
                let s2 : ConsumerState :=
                  { s1 with counts := counts1, count := s1.count + 1 }
                match value with
                | none => .next s2
                | some v =>
                    if truthyV v then
                      match dispatchAnalysis m.topic v with
                      | .ok _ => .next { s2 with dispatched := s2.count :: s2.dispatched }
                      | .error _ => .stop s2 .errored
                    else .next s2

/-- The whole loop over a finite event list.  `none` means every event was
consumed without a stop and the iterator is still blocked in the pull. -/
def consumeLoop (cfg : Config) : ConsumerState → List SrcEvent → ConsumerState × Option StopReason
  | s, [] => (s, none)
  | s, e :: rest =>
      match stepEvent cfg s e with
      | .next s1 => consumeLoop cfg s1 rest
      | .stop s1 r => (s1, some r)

/-- Every state the loop passes through, in order, ending with the final
state (stopped or still running). -/
def loopStates (cfg : Config) : ConsumerState → List SrcEvent → List ConsumerState
  | s, [] => [s]
  | s, e :: rest =>
      s :: (match stepEvent cfg s e with
            | .next s1 => loopStates cfg s1 rest
            | .stop s1 _ => [s1])

/-! ## The report: `print_summary` (lines 153-174) -/

/-- The qualitative verdict of the summary (lines 165-174). -/
inductive Verdict where
  | healthy
  | noData
deriving DecidableEq

/-- The structured diagnostic hints printed when no data was observed
(lines 171-174). -/
inductive Hint where
  | checkServiceRunning
  | checkTestData
  | checkConnectivity
deriving DecidableEq

/-- The consumption summary's content. -/
structure Report where
  total : Nat
  perTopic : List (String × Nat)
  verdict : Verdict
  hints : List Hint
deriving DecidableEq

/-- `TelemetryConsumer.print_summary` (lines 153-174): the total is the sum
of the per-topic counts; the verdict is healthy exactly when the total is
positive, and otherwise the three diagnostic hints are printed. -/
def print_summary (counts : List (String × Nat)) : Report :=
  let total := (counts.map Prod.snd).sum
  { total := total
    perTopic := counts
    verdict := if total > 0 then .healthy else .noData
    hints := if total > 0 then []
             else [.checkServiceRunning, .checkTestData, .checkConnectivity] }

/-- The state `consume_messages` starts from: all configured topics at
zero (line 23). -/
def initState (topics : List String) : ConsumerState :=
  { counts := topics.map (fun t => (t, 0)), count := 0, pulled := 0, dispatched := [] }

/-- `TelemetryConsumer.consume_messages` (lines 108-151) after the
connectedness check: run the loop; on any stop the `finally` block
produces the summary from the counts gathered so far.  `none` means the
loop never exited (the blocking pull never returned). -/
def consume_messages (cfg : Config) (topics : List String) (evs : List SrcEvent) :
    Option (Report × StopReason) :=
  match consumeLoop cfg (initState topics) evs with
  | (_, none) => none
  | (s, some r) => some (print_summary s.counts, r)

/-- The configured topic list (line 16). -/
def TOPICS : List String := ["otel.traces", "otel.metrics", "otel.logs"]

/-- The CLI defaults (lines 187-188): `max_messages = 10`,
`timeout = 30`. -/
def defaultConfig : Config := { maxMessages := 10, timeout := 30 }

/-- The sum of the accountant's per-topic counts. -/
def sumCounts (s : ConsumerState) : Nat := (s.counts.map Prod.snd).sum

/-! ## Derived definitions used by the statements below -/

/-- The analyzers as methods: `self.analyze_traces(data)` receives the
consumer object but its body reads only `data` and writes only to the
console, so the method returns the object unchanged alongside the
analysis. -/
def analyze_tracesM (self : ConsumerState) (data : JValue) :
    ConsumerState × Except PyErr TraceAnalysis :=
  (self, analyze_traces data)

/-- `self.analyze_metrics(data)` as a method; see `analyze_tracesM`. -/
def analyze_metricsM (self : ConsumerState) (data : JValue) :
    ConsumerState × Except PyErr MetricAnalysis :=
  (self, analyze_metrics data)

/-- `self.analyze_logs(data)` as a method; see `analyze_tracesM`. -/
def analyze_logsM (self : ConsumerState) (data : JValue) :
    ConsumerState × Except PyErr LogAnalysis :=
  (self, analyze_logs data)

/-- An optional object entry, for building span records whose fields may be
absent. -/
def optEntry (k : String) (v : Option String) : List (String × JValue) :=
  match v with
  | some s => [(k, JValue.str s)]
  | none => []

/-- A span record with optional `name`, `traceId` and `spanId` string
fields. -/
def mkSpan (n t sp : Option String) : JValue :=
  .obj (optEntry "name" n ++ optEntry "traceId" t ++ optEntry "spanId" sp)

/-- A scope-span group holding the given span records. -/
def mkScope (spans : List JValue) : JValue := .obj [("spans", .arr spans)]

/-- A resource-span group holding the given scope-span groups. -/
def mkResource (scopes : List JValue) : JValue := .obj [("scopeSpans", .arr scopes)]

/-- A trace payload holding the given resource-span groups. -/
def mkTrace (rss : List JValue) : JValue := .obj [("resourceSpans", .arr rss)]

/-- A span record's three optional fields. -/
abbrev SpanFields := Option String × Option String × Option String

/-- A well-formed trace payload built from nested lists of span fields:
resource-span groups, each holding scope-span groups, each holding span
records. -/
def mkTraceOf (rss : List (List (List SpanFields))) : JValue :=
  mkTrace (rss.map (fun scopes =>
    mkResource (scopes.map (fun spans =>
      mkScope (spans.map (fun p => mkSpan p.1 p.2.1 p.2.2))))))

/-- The span line the script prints for a record with the given optional
fields: the name defaults to `Unknown`, each identifier (defaulted to
`Unknown` when absent) keeps only its first 8 characters, and the rendered
line appends an ellipsis marker after each truncated identifier. -/
def spanLineOf (p : SpanFields) : SpanLine :=
  { name := .str (p.1.getD "Unknown")
    traceCut := .str ((p.2.1.getD "Unknown").take 8)
    spanCut := .str ((p.2.2.getD "Unknown").take 8)
    disp := (p.1.getD "Unknown") ++ " (trace: " ++ (p.2.1.getD "Unknown").take 8 ++
            "..., span: " ++ (p.2.2.getD "Unknown").take 8 ++ "...)" }

/-- The `Found N spans` figures a well-formed trace payload produces: one
entry per scope-span group. -/
def foundOf (rss : List (List (List SpanFields))) : List Nat :=
  catLists (rss.map (fun scopes => scopes.map List.length))

/-- The span lines a well-formed trace payload produces, in order. -/
def linesOf (rss : List (List (List SpanFields))) : List SpanLine :=
  catLists (rss.map (fun scopes => catLists (scopes.map (fun spans => spans.map spanLineOf))))

/-- The span count of a successful trace analysis. -/
def spanCountOf (e : Except PyErr TraceAnalysis) : Option Nat :=
  match e with
  | .ok a => some a.spanCount
  | .error _ => none

/-- The metric count of a successful metrics analysis. -/
def metricCountOf (e : Except PyErr MetricAnalysis) : Option Nat :=
  match e with
  | .ok a => some a.metricCount
  | .error _ => none

/-- A span record with all three fields present. -/
def sampleSpan (nm tid sid : String) : JValue :=
  .obj [("name", .str nm), ("traceId", .str tid), ("spanId", .str sid)]

/-- The spec's concrete trace example: 2 resource-span groups, each with
1 scope-span group, containing 3 and 2 span records respectively. -/
def sampleTrace : JValue :=
  .obj [("resourceSpans", .arr
    [ .obj [("scopeSpans", .arr
        [ .obj [("spans", .arr
            [ sampleSpan "op-a" "abcdef1234567890" "1111222233334444"
            , sampleSpan "op-b" "ffff" "22"
            , sampleSpan "op-c" "0123456789" "9876543210" ])] ])]
    , .obj [("scopeSpans", .arr
        [ .obj [("spans", .arr
            [ sampleSpan "op-d" "dddddddddddd" "8888"
            , .obj [("name", .str "op-e")] ])] ])] ])]

/-- A well-formed trace message for concrete runs. -/
def goodTraceMsg : TMsg := { topic := "otel.traces", raw := .jsonOf sampleTrace }

/-- A message whose raw value `json.loads` cannot decode. -/
def badDecodeMsg : TMsg := { topic := "otel.traces", raw := .invalid }

/-- A message delivered with empty bytes: the deserializer yields `None`. -/
def emptyValueMsg : TMsg := { topic := "otel.traces", raw := .empty }

/-- Whether a topic is a key of the accountant's dict. -/
def hasTopic (counts : List (String × Nat)) (t : String) : Bool :=
  counts.any (fun p => p.1 == t)

/-- Whether a message's value passes through the loop body without raising:
it deserializes, and if it is truthy its analysis (for the message's topic)
succeeds. -/
def valueOk (m : TMsg) : Bool :=
  match value_deserializer m.raw with
  | .error _ => false
  | .ok none => true
  | .ok (some v) =>
      if truthyV v then
        match dispatchAnalysis m.topic v with
        | .ok _ => true
        | .error _ => false
      else true

/-- The loop's state invariant: the accountant's counts sum to the running
count; at most one dispatch per accepted message, recorded most recent
first with strictly decreasing message numbers, all of them positive and
at most the running count. -/
def Inv (s : ConsumerState) : Prop :=
  sumCounts s = s.count ∧
  s.dispatched.length ≤ s.count ∧
  s.dispatched.Pairwise (fun a b => a > b) ∧
  (∀ i ∈ s.dispatched, 1 ≤ i ∧ i ≤ s.count)

/-! ## Helper lemmas -/

/-- A fresh accountant's counts sum to zero. -/
theorem sumCounts_initState (topics : List String) : sumCounts (initState topics) = 0 := by
  induction topics with
  | nil => rfl
  | cons t rest ih =>
      simp only [initState, sumCounts, List.map_cons, List.map_map, List.sum_cons] at ih ⊢
      simpa using ih

/-- A successful accountant increment raises the sum of counts by one. -/
theorem incr_sum {counts c' : List (String × Nat)} {t : String}
    (h : incr counts t = some c') :
    (c'.map Prod.snd).sum = (counts.map Prod.snd).sum + 1 := by
  induction counts generalizing c' with
  | nil => simp [incr] at h
  | cons p rest ih =>
      obtain ⟨k, n⟩ := p
      simp only [incr] at h
      by_cases hk : k = t
      · rw [if_pos hk] at h
        cases h
        simp only [List.map_cons, List.sum_cons]
        omega
      · rw [if_neg hk] at h
        cases hr : incr rest t with
        | none => rw [hr] at h; simp at h
        | some r =>
            rw [hr] at h
            simp only [Option.map_some'] at h
            cases h
            simp only [List.map_cons, List.sum_cons, ih hr]
            omega

/-- A successful accountant increment leaves the key list unchanged. -/
theorem incr_keys {counts c' : List (String × Nat)} {t : String}
    (h : incr counts t = some c') :
    c'.map Prod.fst = counts.map Prod.fst := by
  induction counts generalizing c' with
  | nil => simp [incr] at h
  | cons p rest ih =>
      obtain ⟨k, n⟩ := p
      simp only [incr] at h
      by_cases hk : k = t
      · rw [if_pos hk] at h
        cases h
        simp
      · rw [if_neg hk] at h
        cases hr : incr rest t with
        | none => rw [hr] at h; simp at h
        | some r =>
            rw [hr] at h
            simp only [Option.map_some'] at h
            cases h
            simp [ih hr]

/-- The increment succeeds exactly on registered topics. -/
theorem incr_isSome_of_hasTopic {counts : List (String × Nat)} {t : String}
    (h : hasTopic counts t = true) : ∃ c', incr counts t = some c' := by
  induction counts with
  | nil => simp [hasTopic] at h
  | cons p rest ih =>
      obtain ⟨k, n⟩ := p
      by_cases hk : k = t
      · exact ⟨(k, n + 1) :: rest, by simp [incr, hk]⟩
      · have h' : hasTopic rest t = true := by
          simp only [hasTopic, List.any_cons, Bool.or_eq_true, beq_iff_eq] at h
          rcases h with h | h
          · exact absurd h hk
          · simpa [hasTopic] using h
        obtain ⟨r, hr⟩ := ih h'
        exact ⟨(k, n) :: r, by simp [incr, hk, hr]⟩

/-- Whether a topic is registered depends only on the accountant's keys. -/
theorem hasTopic_congr {c c' : List (String × Nat)} {t : String}
    (h : c'.map Prod.fst = c.map Prod.fst) : hasTopic c' t = hasTopic c t := by
  have expand : ∀ l : List (String × Nat),
      hasTopic l t = (l.map Prod.fst).any (fun k => k == t) := by
    intro l
    induction l with
    | nil => rfl
    | cons p rest ih => simp [hasTopic, List.any_cons] at ih ⊢; rw [ih]
  rw [expand, expand, h]

/-! ## Claim theorems -/

/-- C8 (confirmed): for every session report, the verdict is healthy
exactly when the total message count is positive; otherwise it is
no-data-observed and carries the three diagnostic hints (service running,
test data being sent, broker connectivity); the total is the sum of the
per-topic counts. -/
theorem c8_thm :
    ∀ counts : List (String × Nat),
      ((print_summary counts).verdict = Verdict.healthy ↔ 0 < (print_summary counts).total) ∧
      ((print_summary counts).verdict = Verdict.noData ↔ (print_summary counts).total = 0) ∧
      (print_summary counts).total = (counts.map Prod.snd).sum ∧
      (print_summary counts).hints =
        (if 0 < (print_summary counts).total then []
         else [Hint.checkServiceRunning, Hint.checkTestData, Hint.checkConnectivity]) := by
  intro counts
  by_cases h : 0 < (counts.map Prod.snd).sum
  · constructor
    · simp [print_summary, h]
    · constructor
      · simp [print_summary, h]; omega
      · constructor
        · rfl
        · simp [print_summary, h]
  · constructor
    · simp [print_summary, h]
    · constructor
      · simp [print_summary, h]; omega
      · constructor
        · rfl
        · simp [print_summary, h]

/-- C9 (confirmed): the analyzers are pure and stateless.  Each analyzer
method leaves the consumer object it receives unchanged (its body reads
only the payload argument), payloads are immutable values, and re-running
any analyzer on the same decoded payload — from the state the first run
left behind — yields an identical result. -/
theorem c9_thm :
    ∀ (s : ConsumerState) (d : JValue),
      (analyze_tracesM s d).1 = s ∧
      (analyze_metricsM s d).1 = s ∧
      (analyze_logsM s d).1 = s ∧
      (analyze_tracesM ((analyze_tracesM s d).1) d).2 = (analyze_tracesM s d).2 ∧
      (analyze_metricsM ((analyze_metricsM s d).1) d).2 = (analyze_metricsM s d).2 ∧
      (analyze_logsM ((analyze_logsM s d).1) d).2 = (analyze_logsM s d).2 :=
  fun _ _ => ⟨rfl, rfl, rfl, rfl, rfl, rfl⟩

/-- C1 counterexample: a decode failure DOES abort the loop.  With the
default configuration, a run delivering a message with an undecodable
value at second 1 and a well-formed trace message at second 2 stops via
the catch-all handler at the first message: nothing is counted (no
accountant increment, no running-count increment, so no summary of any
kind is recorded for it), and the well-formed message is never pulled
(`pulled = 1`). -/
theorem c1_cex :
    consumeLoop defaultConfig (initState TOPICS) [.msg 1 badDecodeMsg, .msg 2 goodTraceMsg]
      = ({ counts := [("otel.traces", 0), ("otel.metrics", 0), ("otel.logs", 0)],
           count := 0, pulled := 1, dispatched := [] }, some .errored) := rfl

/-- C1 amended: a decode failure on a message's value raises inside the
pull and stops the loop through the catch-all handler, from any state and
any configuration: the malformed message is pulled but not counted (no
accountant or running-count increment, no summary), the remaining events
are never processed, and the consumption summary is still produced from
the counts gathered so far. -/
theorem c1_amended :
    ∀ (cfg : Config) (s : ConsumerState) (topics : List String) (t : Nat) (tp : String)
      (rest : List SrcEvent),
      consumeLoop cfg s (SrcEvent.msg t { topic := tp, raw := .invalid } :: rest)
        = ({ s with pulled := s.pulled + 1 }, some .errored) ∧
      (consume_messages cfg topics (SrcEvent.msg t { topic := tp, raw := .invalid } :: rest)).isSome
        = true :=
  fun _ _ _ _ _ _ => ⟨rfl, rfl⟩

/-- C2 counterexample: a source that never produces anything does not make
the loop stop with `TimeoutReached` — the blocking pull never returns (the
remaining time budget is not passed into it), so the run produces no stop
and no report at all, rather than the claimed timeout stop with a
"no data observed" verdict. -/
theorem c2_cex : consume_messages defaultConfig TOPICS [] = none := rfl

/-- C4 counterexample: after a run that delivers one message with empty
bytes (deserialized to `None`) on `otel.traces`, the accountant's counts
sum to 1 but no message was ever dispatched to an analyzer, so the sum of
per-topic counts differs from the number of analyzed messages. -/
theorem c4_cex :
    sumCounts (consumeLoop defaultConfig (initState TOPICS) [.msg 1 emptyValueMsg]).1 = 1 ∧
    (consumeLoop defaultConfig (initState TOPICS) [.msg 1 emptyValueMsg]).1.dispatched.length
      = 0 :=
  ⟨rfl, rfl⟩

/-- C6 counterexample: the analyzer does not raise only on non-mapping
payloads.  A metrics payload that IS a mapping, `{"resourceMetrics": 42}`,
raises a `TypeError` (line 85 iterates the number), while the non-mapping
payload `[]` raises nothing and yields an empty analysis. -/
theorem c6_cex :
    analyze_metrics (.obj [("resourceMetrics", .num 42)]) = .error .typeError ∧
    analyze_metrics (.arr []) = .ok { found := [], names := [] } :=
  ⟨rfl, rfl⟩

/-- C2 amended: if the first pull returns only after the timeout has
elapsed (and the record's value deserializes), the loop stops at that
first message with `TimeoutReached`, nothing counted, and the report's
verdict is no-data-observed.  A source that never returns from the pull,
however, never reaches the timeout check at all (see the
counterexample). -/
theorem c2_amended :
    ∀ (cfg : Config) (topics : List String) (t : Nat) (m : TMsg) (rest : List SrcEvent)
      (ov : Option JValue),
      value_deserializer m.raw = .ok ov →
      (t : Int) > cfg.timeout →
      ∃ rep, consume_messages cfg topics (SrcEvent.msg t m :: rest)
          = some (rep, .timeoutReached) ∧
        rep.total = 0 ∧ rep.verdict = .noData := by
  intro cfg topics t m rest ov hdes ht
  have hsum : ((initState topics).counts.map Prod.snd).sum = 0 := sumCounts_initState topics
  have hloop : consumeLoop cfg (initState topics) (SrcEvent.msg t m :: rest)
      = ({ initState topics with pulled := (initState topics).pulled + 1 },
         some .timeoutReached) := by
    simp only [consumeLoop, stepEvent, hdes]
    rw [if_pos ht]
  refine ⟨print_summary (initState topics).counts, ?_, ?_, ?_⟩
  · simp only [consume_messages, hloop]
  · simp [print_summary, hsum]
  · simp [print_summary, hsum]

/-- C2 witness: a concrete run whose only message arrives at second 31
with a 30-second timeout stops with `TimeoutReached` and an empty
report. -/
theorem c2_witness :
    (31 : Int) > defaultConfig.timeout ∧
    (consume_messages defaultConfig TOPICS [SrcEvent.msg 31 goodTraceMsg]).isSome = true := by
  obtain ⟨rep, heq, -, -⟩ :=
    c2_amended defaultConfig TOPICS 31 goodTraceMsg [] (some sampleTrace) rfl (by decide)
  exact ⟨by decide, by rw [heq]; rfl⟩

/-- Analyzing a built span record extracts the name (defaulted to
`Unknown`), slices each identifier to its first 8 characters, and renders
the line with the ellipsis markers. -/
theorem analyzeSpan_mkSpan (p : SpanFields) :
    analyzeSpan (mkSpan p.1 p.2.1 p.2.2) = .ok (spanLineOf p) := by
  obtain ⟨n, t, sp⟩ := p
  cases n <;> cases t <;> cases sp <;> rfl

/-- The span loop over built records produces one line per record, in
order. -/
theorem spansWalk_map (l : List SpanFields) :
    spansWalk (l.map (fun p => mkSpan p.1 p.2.1 p.2.2)) = .ok (l.map spanLineOf) := by
  induction l with
  | nil => rfl
  | cons p rest ih =>
      simp only [List.map_cons, spansWalk, analyzeSpan_mkSpan p, ih]
      rfl

/-- A built scope-span group reports its record count in the `Found N
spans` line and yields one span line per record. -/
theorem traceScopeStep_mk (l : List SpanFields) :
    traceScopeStep (mkScope (l.map (fun p => mkSpan p.1 p.2.1 p.2.2)))
      = .ok { found := [l.length], lines := l.map spanLineOf } := by
  have hstep : ∀ X : List JValue,
      traceScopeStep (mkScope X)
        = (do
            let ls ← spansWalk X
            Except.ok { found := [X.length], lines := ls } :
           Except PyErr TraceAnalysis) := fun _ => rfl
  rw [hstep, spansWalk_map]
  simp only [List.length_map]
  rfl

/-- The scope loop over built groups concatenates their contributions. -/
theorem traceScopesWalk_mk (scopes : List (List SpanFields)) :
    traceScopesWalk
        (scopes.map (fun l => mkScope (l.map (fun p => mkSpan p.1 p.2.1 p.2.2))))
      = .ok { found := scopes.map List.length,
              lines := catLists (scopes.map (fun l => l.map spanLineOf)) } := by
  induction scopes with
  | nil => rfl
  | cons l rest ih =>
      simp only [List.map_cons, traceScopesWalk, traceScopeStep_mk l, ih]
      rfl

/-- A built resource-span group forwards its scope groups' contributions. -/
theorem traceResourceStep_mk (scopes : List (List SpanFields)) :
    traceResourceStep
        (mkResource (scopes.map (fun l => mkScope (l.map (fun p => mkSpan p.1 p.2.1 p.2.2)))))
      = .ok { found := scopes.map List.length,
              lines := catLists (scopes.map (fun l => l.map spanLineOf)) } := by
  have hstep : ∀ X : List JValue, traceResourceStep (mkResource X) = traceScopesWalk X :=
    fun _ => rfl
  rw [hstep, traceScopesWalk_mk]

/-- The resource loop over built groups concatenates their
contributions. -/
theorem traceResourcesWalk_mk (rss : List (List (List SpanFields))) :
    traceResourcesWalk (rss.map (fun scopes =>
        mkResource (scopes.map (fun l => mkScope (l.map (fun p => mkSpan p.1 p.2.1 p.2.2))))))
      = .ok { found := foundOf rss, lines := linesOf rss } := by
  induction rss with
  | nil => rfl
  | cons scopes rest ih =>
      simp only [List.map_cons, traceResourcesWalk, traceResourceStep_mk scopes, ih]
      simp only [foundOf, linesOf, catLists, List.map_cons]
      rfl

/-- The per-scope record counts of a built payload sum to its total number
of span lines. -/
theorem foundOf_sum_eq (rss : List (List (List SpanFields))) :
    (foundOf rss).sum = (linesOf rss).length := by
  have inner : ∀ scopes : List (List SpanFields),
      (scopes.map List.length).sum
        = (catLists (scopes.map (fun l => l.map spanLineOf))).length := by
    intro scopes
    induction scopes with
    | nil => rfl
    | cons l rest ih =>
        simp only [List.map_cons, List.sum_cons, catLists, List.length_append,
          List.length_map, ih]
  induction rss with
  | nil => rfl
  | cons scopes rest ih =>
      simp only [foundOf, linesOf, List.map_cons, catLists, List.sum_append,
        List.length_append] at ih ⊢
      rw [ih, inner scopes]

/-- C5 (confirmed): for every well-formed trace payload, the analysis
succeeds; the `Found N spans` figures are the per-scope-group record
counts (so the span count — their sum — equals the total number of span
records across all resource-span and scope-span groups); each record's
line holds the name, defaulted to `Unknown` when absent, and each present
identifier truncated to its first 8 characters followed by an ellipsis
marker.  In particular the spec's example — 2 resource-span groups with
one scope-span group each, containing 3 and 2 records — reports a span
count of 5. -/
theorem c5_thm :
    (∀ rss : List (List (List SpanFields)),
      analyze_traces (mkTraceOf rss) = .ok { found := foundOf rss, lines := linesOf rss } ∧
      spanCountOf (analyze_traces (mkTraceOf rss)) = some (linesOf rss).length) ∧
    (∀ (nm tid sid : String),
      analyzeSpan (mkSpan (some nm) (some tid) (some sid))
        = .ok { name := .str nm, traceCut := .str (tid.take 8), spanCut := .str (sid.take 8),
                disp := nm ++ " (trace: " ++ tid.take 8 ++ "..., span: " ++ sid.take 8
                        ++ "...)" } ∧
      analyzeSpan (mkSpan none (some tid) (some sid))
        = .ok { name := .str "Unknown", traceCut := .str (tid.take 8),
                spanCut := .str (sid.take 8),
                disp := "Unknown" ++ " (trace: " ++ tid.take 8 ++ "..., span: "
                        ++ sid.take 8 ++ "...)" }) ∧
    spanCountOf (analyze_traces sampleTrace) = some 5 := by
  refine ⟨fun rss => ?_, fun nm tid sid => ⟨?_, ?_⟩, rfl⟩
  · have htop : ∀ X : List JValue, analyze_traces (mkTrace X) = traceResourcesWalk X :=
      fun _ => rfl
    have hmain : analyze_traces (mkTraceOf rss)
        = .ok { found := foundOf rss, lines := linesOf rss } := by
      rw [mkTraceOf, htop, traceResourcesWalk_mk]
    refine ⟨hmain, ?_⟩
    rw [hmain, spanCountOf]
    simp only [TraceAnalysis.spanCount, foundOf_sum_eq]
  · exact analyzeSpan_mkSpan (some nm, some tid, some sid)
  · exact analyzeSpan_mkSpan (none, some tid, some sid)

/-- A resource-metric group without a `scopeMetrics` key contributes
nothing. -/
theorem metricResourceStep_noKey {kvs : List (String × JValue)}
    (h : kvs.any (fun p => p.1 == "scopeMetrics") = false) :
    metricResourceStep (.obj kvs) = .ok { found := [], names := [] } := by
  simp only [metricResourceStep, pyContains, h]
  rfl

/-- A scope-metric group without a `metrics` key contributes nothing. -/
theorem metricScopeStep_noKey {kvs : List (String × JValue)}
    (h : kvs.any (fun p => p.1 == "metrics") = false) :
    metricScopeStep (.obj kvs) = .ok { found := [], names := [] } := by
  simp only [metricScopeStep, pyContains, h]
  rfl

/-- The resource loop over groups that each contribute nothing yields an
empty analysis. -/
theorem metricResourcesWalk_empty {l : List JValue}
    (h : ∀ v ∈ l, metricResourceStep v = .ok { found := [], names := [] }) :
    metricResourcesWalk l = .ok { found := [], names := [] } := by
  induction l with
  | nil => rfl
  | cons x rest ih =>
      simp only [metricResourcesWalk, h x (List.mem_cons_self x rest),
        ih (fun v hv => h v (List.mem_cons_of_mem x hv))]
      rfl

/-- The scope loop over groups that each contribute nothing yields an
empty analysis. -/
theorem metricScopesWalk_empty {l : List JValue}
    (h : ∀ v ∈ l, metricScopeStep v = .ok { found := [], names := [] }) :
    metricScopesWalk l = .ok { found := [], names := [] } := by
  induction l with
  | nil => rfl
  | cons x rest ih =>
      simp only [metricScopesWalk, h x (List.mem_cons_self x rest),
        ih (fun v hv => h v (List.mem_cons_of_mem x hv))]
      rfl

/-- A resource-log group without a `scopeLogs` key contributes nothing. -/
theorem logResourceStep_noKey {kvs : List (String × JValue)}
    (h : kvs.any (fun p => p.1 == "scopeLogs") = false) :
    logResourceStep (.obj kvs) = .ok { found := [], lines := [] } := by
  simp only [logResourceStep, pyContains, h]
  rfl

/-- A scope-log group without a `logRecords` key contributes nothing. -/
theorem logScopeStep_noKey {kvs : List (String × JValue)}
    (h : kvs.any (fun p => p.1 == "logRecords") = false) :
    logScopeStep (.obj kvs) = .ok { found := [], lines := [] } := by
  simp only [logScopeStep, pyContains, h]
  rfl

/-- The log resource loop over groups that each contribute nothing yields
an empty analysis. -/
theorem logResourcesWalk_empty {l : List JValue}
    (h : ∀ v ∈ l, logResourceStep v = .ok { found := [], lines := [] }) :
    logResourcesWalk l = .ok { found := [], lines := [] } := by
  induction l with
  | nil => rfl
  | cons x rest ih =>
      simp only [logResourcesWalk, h x (List.mem_cons_self x rest),
        ih (fun v hv => h v (List.mem_cons_of_mem x hv))]
      rfl

/-- The log scope loop over groups that each contribute nothing yields an
empty analysis. -/
theorem logScopesWalk_empty {l : List JValue}
    (h : ∀ v ∈ l, logScopeStep v = .ok { found := [], lines := [] }) :
    logScopesWalk l = .ok { found := [], lines := [] } := by
  induction l with
  | nil => rfl
  | cons x rest ih =>
      simp only [logScopesWalk, h x (List.mem_cons_self x rest),
        ih (fun v hv => h v (List.mem_cons_of_mem x hv))]
      rfl

/-- C6 amended: an absent container key at any nesting level (resource,
scope, or record sequence) contributes zero records rather than raising —
in particular a metrics payload missing the scope-metrics key yields a
metric count of 0, and likewise for logs — but the analyzer's raising is
NOT characterized by non-mapping payloads: a mapping whose present
container has the wrong shape raises `TypeError` (see the counterexample),
while e.g. a list payload yields zero records without raising. -/
theorem c6_amended :
    (∀ kvs : List (String × JValue),
      kvs.any (fun p => p.1 == "resourceMetrics") = false →
      analyze_metrics (.obj kvs) = .ok { found := [], names := [] }) ∧
    (∀ rms : List (List (String × JValue)),
      (∀ kvs ∈ rms, kvs.any (fun p => p.1 == "scopeMetrics") = false) →
      metricCountOf
          (analyze_metrics (.obj [("resourceMetrics", .arr (rms.map JValue.obj))]))
        = some 0) ∧
    (∀ scs : List (List (String × JValue)),
      (∀ kvs ∈ scs, kvs.any (fun p => p.1 == "metrics") = false) →
      metricCountOf (analyze_metrics (.obj [("resourceMetrics",
          .arr [JValue.obj [("scopeMetrics", .arr (scs.map JValue.obj))]])]))
        = some 0) ∧
    (∀ kvs : List (String × JValue),
      kvs.any (fun p => p.1 == "resourceLogs") = false →
      analyze_logs (.obj kvs) = .ok { found := [], lines := [] }) ∧
    (∀ rls : List (List (String × JValue)),
      (∀ kvs ∈ rls, kvs.any (fun p => p.1 == "scopeLogs") = false) →
      analyze_logs (.obj [("resourceLogs", .arr (rls.map JValue.obj))])
        = .ok { found := [], lines := [] }) ∧
    (∀ scs : List (List (String × JValue)),
      (∀ kvs ∈ scs, kvs.any (fun p => p.1 == "logRecords") = false) →
      analyze_logs (.obj [("resourceLogs",
          .arr [JValue.obj [("scopeLogs", .arr (scs.map JValue.obj))]])])
        = .ok { found := [], lines := [] }) := by
  have hmwalk : ∀ X : List JValue,
      analyze_metrics (.obj [("resourceMetrics", JValue.arr X)]) = metricResourcesWalk X :=
    fun _ => rfl
  have hlwalk : ∀ X : List JValue,
      analyze_logs (.obj [("resourceLogs", JValue.arr X)]) = logResourcesWalk X :=
    fun _ => rfl
  have hmres : ∀ X : List JValue,
      metricResourceStep (.obj [("scopeMetrics", JValue.arr X)]) = metricScopesWalk X :=
    fun _ => rfl
  have hlres : ∀ X : List JValue,
      logResourceStep (.obj [("scopeLogs", JValue.arr X)]) = logScopesWalk X :=
    fun _ => rfl
  refine ⟨?_, ?_, ?_, ?_, ?_, ?_⟩
  · intro kvs h
    simp only [analyze_metrics, pyContains, h]
    rfl
  · intro rms h
    have hwalk : metricResourcesWalk (rms.map JValue.obj) = .ok { found := [], names := [] } := by
      apply metricResourcesWalk_empty
      intro v hv
      obtain ⟨kvs, hk, rfl⟩ := List.mem_map.mp hv
      exact metricResourceStep_noKey (h kvs hk)
    rw [hmwalk, hwalk, metricCountOf]
    rfl
  · intro scs h
    have hone : metricResourceStep (.obj [("scopeMetrics", .arr (scs.map JValue.obj))])
        = .ok { found := [], names := [] } := by
      rw [hmres]
      apply metricScopesWalk_empty
      intro v hv
      obtain ⟨kvs, hk, rfl⟩ := List.mem_map.mp hv
      exact metricScopeStep_noKey (h kvs hk)
    have hwalk : metricResourcesWalk [JValue.obj [("scopeMetrics", .arr (scs.map JValue.obj))]]
        = .ok { found := [], names := [] } := by
      apply metricResourcesWalk_empty
      intro v hv
      rw [List.mem_singleton.mp hv]
      exact hone
    rw [hmwalk, hwalk, metricCountOf]
    rfl
  · intro kvs h
    simp only [analyze_logs, pyContains, h]
    rfl
  · intro rls h
    rw [hlwalk]
    apply logResourcesWalk_empty
    intro v hv
    obtain ⟨kvs, hk, rfl⟩ := List.mem_map.mp hv
    exact logResourceStep_noKey (h kvs hk)
  · intro scs h
    have hone : logResourceStep (.obj [("scopeLogs", .arr (scs.map JValue.obj))])
        = .ok { found := [], lines := [] } := by
      rw [hlres]
      apply logScopesWalk_empty
      intro v hv
      obtain ⟨kvs, hk, rfl⟩ := List.mem_map.mp hv
      exact logScopeStep_noKey (h kvs hk)
    rw [hlwalk]
    apply logResourcesWalk_empty
    intro v hv
    rw [List.mem_singleton.mp hv]
    exact hone

/-- C6 witness: concrete payloads with absent containers at each level
yield empty analyses without raising. -/
theorem c6_witness :
    analyze_metrics (.obj [("foo", .null)]) = .ok { found := [], names := [] } ∧
    metricCountOf (analyze_metrics
        (.obj [("resourceMetrics", .arr [JValue.obj [("bar", .num 1)]])])) = some 0 ∧
    analyze_logs (.obj [("resourceLogs", .arr [JValue.obj []])])
      = .ok { found := [], lines := [] } := by
  obtain ⟨h1, h2, -, -, h5, -⟩ := c6_amended
  refine ⟨h1 [("foo", .null)] (by decide), ?_, ?_⟩
  · have := h2 [[("bar", .num 1)]] (by decide)
    simpa using this
  · have := h5 [[]] (by decide)
    simpa using this

/-- Accepting a message (a successful increment plus the running-count
increment) preserves the loop invariant, with or without a subsequent
dispatch record. -/
theorem inv_accept {s : ConsumerState} {counts1 : List (String × Nat)} {tp : String}
    (h : Inv s) (hincr : incr s.counts tp = some counts1) :
    Inv { counts := counts1, count := s.count + 1, pulled := s.pulled + 1,
          dispatched := s.dispatched } ∧
    Inv { counts := counts1, count := s.count + 1, pulled := s.pulled + 1,
          dispatched := (s.count + 1) :: s.dispatched } := by
  obtain ⟨h1, h2, h3, h4⟩ := h
  have h1' : (s.counts.map Prod.snd).sum = s.count := h1
  have hsum : (counts1.map Prod.snd).sum = s.count + 1 := by
    rw [incr_sum hincr, h1']
  constructor
  · refine ⟨hsum, Nat.le_succ_of_le h2, h3, ?_⟩
    intro i hi
    obtain ⟨hi1, hi2⟩ := h4 i hi
    exact ⟨hi1, Nat.le_succ_of_le hi2⟩
  · refine ⟨hsum, ?_, ?_, ?_⟩
    · simpa using Nat.succ_le_succ h2
    · refine List.Pairwise.cons ?_ h3
      intro b hb
      have := (h4 b hb).2
      omega
    · intro i hi
      rcases List.mem_cons.mp hi with rfl | hi
      · show 1 ≤ s.count + 1 ∧ s.count + 1 ≤ s.count + 1
        omega
      · obtain ⟨hi1, hi2⟩ := h4 i hi
        refine ⟨hi1, ?_⟩
        show i ≤ s.count + 1
        omega

/-- A fresh consumer state satisfies the loop invariant. -/
theorem inv_initState (topics : List String) : Inv (initState topics) := by
  refine ⟨sumCounts_initState topics, ?_, ?_, ?_⟩ <;> simp [initState]

/-- Handling any source event preserves the loop invariant, whether the
loop continues or stops. -/
theorem inv_step {cfg : Config} {s : ConsumerState} (e : SrcEvent) (h : Inv s) :
    Inv (stepEvent cfg s e).state := by
  cases e with
  | interrupt => exact h
  | srcErr => exact h
  | msg t m =>
      simp only [stepEvent]
      split
      · exact h
      · split
        · exact h
        · split
          · exact h
          · split
            · exact h
            · next counts1 hincr =>
                have hacc := inv_accept h hincr
                split
                · exact hacc.1
                · split
                  · split
                    · exact hacc.2
                    · exact hacc.1
                  · exact hacc.1

/-- Every state the loop passes through satisfies the invariant. -/
theorem inv_loopStates {cfg : Config} :
    ∀ (evs : List SrcEvent) (s : ConsumerState), Inv s →
      ∀ s' ∈ loopStates cfg s evs, Inv s' := by
  intro evs
  induction evs with
  | nil =>
      intro s h s' hs'
      simp only [loopStates, List.mem_singleton] at hs'
      subst hs'
      exact h
  | cons e rest ih =>
      intro s h s' hs'
      simp only [loopStates, List.mem_cons] at hs'
      rcases hs' with rfl | hs'
      · exact h
      · have hst := @inv_step cfg s e h
        cases hstep : stepEvent cfg s e with
        | next s1 =>
            rw [hstep] at hs' hst
            exact ih s1 hst s' hs'
        | stop s1 r =>
            rw [hstep] at hs' hst
            simp only [List.mem_singleton] at hs'
            subst hs'
            exact hst

/-- A continuing step pulls exactly one message and accepts it. -/
theorem stepEvent_next_counts {cfg : Config} {s s1 : ConsumerState} {e : SrcEvent}
    (h : stepEvent cfg s e = .next s1) :
    s1.pulled = s.pulled + 1 ∧ s1.count = s.count + 1 := by
  cases e with
  | interrupt => simp [stepEvent] at h
  | srcErr => simp [stepEvent] at h
  | msg t m =>
      simp only [stepEvent] at h
      split at h
      · simp at h
      · split at h
        · simp at h
        · split at h
          · simp at h
          · split at h
            · simp at h
            · split at h
              · cases h
                exact ⟨rfl, rfl⟩
              · split at h
                · split at h
                  · cases h
                    exact ⟨rfl, rfl⟩
                  · simp at h
                · cases h
                  exact ⟨rfl, rfl⟩

/-- A step that stops with one of the two bound reasons pulled the
triggering message but did not accept it. -/
theorem stepEvent_stop_bound {cfg : Config} {s s1 : ConsumerState} {e : SrcEvent}
    {r : StopReason} (h : stepEvent cfg s e = .stop s1 r)
    (hr : r = .timeoutReached ∨ r = .maxMessagesReached) :
    s1.pulled = s.pulled + 1 ∧ s1.count = s.count := by
  cases e with
  | interrupt =>
      simp only [stepEvent] at h
      cases h
      rcases hr with h' | h' <;> cases h'
  | srcErr =>
      simp only [stepEvent] at h
      cases h
      rcases hr with h' | h' <;> cases h'
  | msg t m =>
      simp only [stepEvent] at h
      split at h
      · cases h
        rcases hr with h' | h' <;> cases h'
      · split at h
        · cases h
          exact ⟨rfl, rfl⟩
        · split at h
          · cases h
            exact ⟨rfl, rfl⟩
          · split at h
            · cases h
              rcases hr with h' | h' <;> cases h'
            · split at h
              · simp at h
              · split at h
                · split at h
                  · simp at h
                  · cases h
                    rcases hr with h' | h' <;> cases h'
                · simp at h

/-- When the loop stops at a bound check, the final state has pulled
exactly one more message than it counted: the triggering message left the
source but was never accepted. -/
theorem consumeLoop_pulled {cfg : Config} :
    ∀ (evs : List SrcEvent) (s s' : ConsumerState) (rsn : StopReason),
      s.pulled = s.count →
      consumeLoop cfg s evs = (s', some rsn) →
      rsn = .timeoutReached ∨ rsn = .maxMessagesReached →
      s'.pulled = s'.count + 1 := by
  intro evs
  induction evs with
  | nil =>
      intro s s' rsn hpc h hr
      simp [consumeLoop] at h
  | cons e rest ih =>
      intro s s' rsn hpc h hr
      simp only [consumeLoop] at h
      cases hstep : stepEvent cfg s e with
      | next s1 =>
          rw [hstep] at h
          obtain ⟨hp, hc⟩ := stepEvent_next_counts hstep
          exact ih s1 s' rsn (by omega) h hr
      | stop s1 r =>
          rw [hstep] at h
          injection h with h1 h2
          injection h2 with h2
          subst h1
          subst h2
          obtain ⟨hp, hc⟩ := stepEvent_stop_bound hstep hr
          omega

/-- The loop's final state is among the states it passes through. -/
theorem consumeLoop_mem_loopStates {cfg : Config} :
    ∀ (evs : List SrcEvent) (s : ConsumerState),
      (consumeLoop cfg s evs).1 ∈ loopStates cfg s evs := by
  intro evs
  induction evs with
  | nil =>
      intro s
      simp [consumeLoop, loopStates]
  | cons e rest ih =>
      intro s
      simp only [consumeLoop, loopStates]
      cases hstep : stepEvent cfg s e with
      | next s1 => exact List.mem_cons_of_mem s (ih s1)
      | stop s1 r => simp

/-- A run containing any non-message event (an interrupt or a broker
error) necessarily stops: those events always terminate the loop when
reached, and if an earlier event already stopped it the run has stopped
anyway. -/
theorem consumeLoop_stops_of_nonMsg {cfg : Config} :
    ∀ (evs : List SrcEvent) (s : ConsumerState),
      (∃ e ∈ evs, e.isMsg = false) → ((consumeLoop cfg s evs).2).isSome = true := by
  intro evs
  induction evs with
  | nil =>
      intro s h
      simp at h
  | cons e rest ih =>
      intro s h
      simp only [consumeLoop]
      cases hstep : stepEvent cfg s e with
      | stop s1 r => simp
      | next s1 =>
          apply ih
          obtain ⟨e1, he1, hne⟩ := h
          rcases List.mem_cons.mp he1 with rfl | he1
          · exfalso
            cases e1 with
            | msg t m => simp [SrcEvent.isMsg] at hne
            | interrupt => simp [stepEvent] at hstep
            | srcErr => simp [stepEvent] at hstep
          · exact ⟨e1, he1, hne⟩

/-- Handling a message whose arrival beats both bounds, whose topic is
registered, and whose value processes cleanly continues the loop with one
more pull, one more accepted message, one more unit in the accountant,
unchanged keys, and at most one new dispatch record. -/
theorem stepEvent_clean {cfg : Config} {s : ConsumerState} {t : Nat} {m : TMsg}
    (ht : (t : Int) ≤ cfg.timeout)
    (hmax : (s.count : Int) < cfg.maxMessages)
    (htop : hasTopic s.counts m.topic = true)
    (hval : valueOk m = true) :
    ∃ s1, stepEvent cfg s (.msg t m) = .next s1 ∧
      s1.count = s.count + 1 ∧
      sumCounts s1 = sumCounts s + 1 ∧
      s1.pulled = s.pulled + 1 ∧
      s1.counts.map Prod.fst = s.counts.map Prod.fst ∧
      (s1.dispatched = s.dispatched ∨ s1.dispatched = (s.count + 1) :: s.dispatched) := by
  obtain ⟨c1, hc1⟩ := incr_isSome_of_hasTopic htop
  simp only [valueOk] at hval
  simp only [stepEvent]
  cases hdes : value_deserializer m.raw with
  | error err =>
      rw [hdes] at hval
      exact absurd hval (by simp)
  | ok value =>
      rw [hdes] at hval
      dsimp only
      split
      · next htt => exact absurd htt (not_lt.mpr ht)
      · split
        · next hge =>
            have hge' : (s.count : Int) ≥ cfg.maxMessages := hge
            exact absurd hge' (not_le.mpr hmax)
        · split
          · next hnone =>
              have h' : incr s.counts m.topic = none := hnone
              rw [hc1] at h'
              exact Option.noConfusion h'
          · next counts1 hsome =>
              have h' : incr s.counts m.topic = some counts1 := hsome
              rw [hc1] at h'
              injection h' with h''
              subst h''
              cases value with
              | none =>
                  dsimp only
                  exact ⟨_, rfl, rfl, incr_sum hc1, rfl, incr_keys hc1, Or.inl rfl⟩
              | some v =>
                  dsimp only
                  dsimp only at hval
                  split
                  · next htr =>
                      rw [if_pos htr] at hval
                      split
                      · next u hdis =>
                          exact ⟨_, rfl, rfl, incr_sum hc1, rfl, incr_keys hc1, Or.inr rfl⟩
                      · next err hdis =>
                          rw [hdis] at hval
                          simp at hval
                  · next htr =>
                      exact ⟨_, rfl, rfl, incr_sum hc1, rfl, incr_keys hc1, Or.inl rfl⟩

/-- Running the loop over a block of clean, in-time messages that fits
inside the message budget consumes the whole block: every message is
accepted, the accountant gains one unit per message with unchanged keys,
and all dispatch records stay at or below the final running count. -/
theorem consumeLoop_clean_block {cfg : Config} :
    ∀ (msgs : List (Nat × TMsg)) (s : ConsumerState) (rest : List SrcEvent),
      (∀ p ∈ msgs, ((p.1 : Int) ≤ cfg.timeout) ∧
        hasTopic s.counts p.2.topic = true ∧ valueOk p.2 = true) →
      ((s.count : Int) + msgs.length ≤ cfg.maxMessages) →
      ∃ s1, consumeLoop cfg s (msgs.map (fun p => SrcEvent.msg p.1 p.2) ++ rest)
              = consumeLoop cfg s1 rest ∧
        s1.count = s.count + msgs.length ∧
        sumCounts s1 = sumCounts s + msgs.length ∧
        s1.pulled = s.pulled + msgs.length ∧
        s1.counts.map Prod.fst = s.counts.map Prod.fst ∧
        (∀ i ∈ s1.dispatched, i ∈ s.dispatched ∨ i ≤ s.count + msgs.length) := by
  intro msgs
  induction msgs with
  | nil =>
      intro s rest hall hbud
      exact ⟨s, rfl, by simp, by simp, by simp, rfl, fun i hi => Or.inl hi⟩
  | cons p ps ih =>
      intro s rest hall hbud
      obtain ⟨t, m⟩ := p
      obtain ⟨ht, htop, hval⟩ := hall (t, m) (List.mem_cons_self _ _)
      have hmax : (s.count : Int) < cfg.maxMessages := by
        simp only [List.length_cons] at hbud
        push_cast at hbud
        omega
      obtain ⟨s2, hstep, hcount, hsum, hpull, hkeys, hdisp⟩ :=
        stepEvent_clean ht hmax htop hval
      have hone : consumeLoop cfg s
          (((t, m) :: ps).map (fun p => SrcEvent.msg p.1 p.2) ++ rest)
          = consumeLoop cfg s2 (ps.map (fun p => SrcEvent.msg p.1 p.2) ++ rest) := by
        simp only [List.map_cons, List.cons_append, consumeLoop, hstep]
        rfl
      have hall2 : ∀ q ∈ ps, ((q.1 : Int) ≤ cfg.timeout) ∧
          hasTopic s2.counts q.2.topic = true ∧ valueOk q.2 = true := by
        intro q hq
        obtain ⟨hq1, hq2, hq3⟩ := hall q (List.mem_cons_of_mem _ hq)
        exact ⟨hq1, by rw [hasTopic_congr hkeys]; exact hq2, hq3⟩
      have hbud2 : ((s2.count : Int) + ps.length ≤ cfg.maxMessages) := by
        rw [hcount]
        simp only [List.length_cons] at hbud
        push_cast at hbud ⊢
        omega
      obtain ⟨s1, hrec, h1, h2, h3, h4, h5⟩ := ih s2 rest hall2 hbud2
      refine ⟨s1, by rw [hone, hrec], ?_, ?_, ?_, ?_, ?_⟩
      · rw [h1, hcount]
        simp [List.length_cons]
        omega
      · rw [h2, hsum]
        simp [List.length_cons]
        omega
      · rw [h3, hpull]
        simp [List.length_cons]
        omega
      · rw [h4, hkeys]
      · intro i hi
        rcases h5 i hi with hmem | hle
        · rcases hdisp with hd | hd
          · rw [hd] at hmem
            exact Or.inl hmem
          · rw [hd] at hmem
            rcases List.mem_cons.mp hmem with rfl | hmem
            · right
              simp only [List.length_cons]
              omega
            · exact Or.inl hmem
        · right
          rw [hcount] at hle
          simp only [List.length_cons]
          omega

/-- C3 counterexample: the message-bound claim fails without a
cleanliness proviso.  With `maxMessages = 1` and a 30-second timeout, a
well-formed message at second 1 followed by an undecodable one at second
2 — so the `(maxMessages+1)`-th message arrives well before the timeout
elapses — does NOT stop the loop with `MaxMessagesReached`: the second
message's deserializer raises inside the pull before the count check ever
runs, and the run stops through the catch-all handler with reason
`errored` instead. -/
theorem c3_cex :
    consumeLoop { maxMessages := 1, timeout := 30 } (initState TOPICS)
        [.msg 1 goodTraceMsg, .msg 2 badDecodeMsg]
      = ({ counts := [("otel.traces", 1), ("otel.metrics", 0), ("otel.logs", 0)],
           count := 1, pulled := 2, dispatched := [1] }, some .errored) := rfl

/-- C3 amended: when the first `maxMessages` messages are clean (they
deserialize, their topics are registered, and their analysis does not
raise), arrive in time and on registered topics, and one more message
whose value deserializes would arrive before the timeout elapses, the
loop stops at that message with reason `MaxMessagesReached`: exactly
`maxMessages` messages are counted, the accountant totals exactly
`maxMessages`, the extra message is pulled (`pulled = maxMessages + 1`)
but never analyzed (every dispatch record refers to one of the first
`maxMessages` messages), and the report is still produced.  A malformed
message anywhere in that window instead stops the loop through the
catch-all handler with reason `errored` (see the counterexample). -/
theorem c3_thm :
    ∀ (cfg : Config) (topics : List String) (k : Nat) (msgs : List (Nat × TMsg))
      (tk : Nat) (mk1 : TMsg) (rest : List SrcEvent) (ov : Option JValue),
      cfg.maxMessages = (k : Int) →
      msgs.length = k →
      (∀ p ∈ msgs, ((p.1 : Int) ≤ cfg.timeout) ∧
        hasTopic (initState topics).counts p.2.topic = true ∧ valueOk p.2 = true) →
      ((tk : Int) ≤ cfg.timeout) →
      value_deserializer mk1.raw = .ok ov →
      ∃ s1, consumeLoop cfg (initState topics)
              (msgs.map (fun p => SrcEvent.msg p.1 p.2) ++ SrcEvent.msg tk mk1 :: rest)
            = (s1, some .maxMessagesReached) ∧
        s1.count = k ∧
        sumCounts s1 = k ∧
        s1.pulled = k + 1 ∧
        (∀ i ∈ s1.dispatched, i ≤ k) ∧
        consume_messages cfg topics
            (msgs.map (fun p => SrcEvent.msg p.1 p.2) ++ SrcEvent.msg tk mk1 :: rest)
          = some (print_summary s1.counts, .maxMessagesReached) := by
  intro cfg topics k msgs tk mk1 rest ov hk hlen hall htk hdes
  have hbud : (((initState topics).count : Int) + msgs.length ≤ cfg.maxMessages) := by
    simp only [initState, hlen, hk]
    push_cast
    omega
  obtain ⟨s2, hpref, hcount, hsum, hpull, hkeys, hdisp⟩ :=
    consumeLoop_clean_block msgs (initState topics) (SrcEvent.msg tk mk1 :: rest) hall hbud
  have hc2 : s2.count = k := by
    rw [hcount]
    simp [initState, hlen]
  have hstop : consumeLoop cfg s2 (SrcEvent.msg tk mk1 :: rest)
      = ({ s2 with pulled := s2.pulled + 1 }, some .maxMessagesReached) := by
    simp only [consumeLoop, stepEvent, hdes]
    rw [if_neg (not_lt.mpr htk),
      if_pos (show ((s2.count : Int) ≥ cfg.maxMessages) from by simp [hc2, hk])]
  have hloop : consumeLoop cfg (initState topics)
      (msgs.map (fun p => SrcEvent.msg p.1 p.2) ++ SrcEvent.msg tk mk1 :: rest)
      = ({ s2 with pulled := s2.pulled + 1 }, some .maxMessagesReached) := by
    rw [hpref, hstop]
  refine ⟨{ s2 with pulled := s2.pulled + 1 }, hloop, hc2, ?_, ?_, ?_, ?_⟩
  · show sumCounts s2 = k
    rw [hsum, sumCounts_initState, hlen]
    omega
  · show s2.pulled + 1 = k + 1
    rw [hpull, hlen]
    simp [initState]
  · intro i hi
    rcases hdisp i hi with hmem | hle
    · simp [initState] at hmem
    · simpa [initState, hlen] using hle
  · simp only [consume_messages, hloop]

/-- C3 witness: with `maxMessages = 1`, one clean message at second 0 and
a second message arriving at second 1 — well before the 30-second
timeout — the loop stops at exactly 1 message with
`MaxMessagesReached`. -/
theorem c3_witness :
    ∃ s1, consumeLoop { maxMessages := 1, timeout := 30 } (initState TOPICS)
            ([(0, goodTraceMsg)].map (fun p => SrcEvent.msg p.1 p.2)
              ++ SrcEvent.msg 1 goodTraceMsg :: [])
          = (s1, some .maxMessagesReached) ∧
      s1.count = 1 ∧ sumCounts s1 = 1 ∧ s1.pulled = 2 :=
  match c3_thm { maxMessages := 1, timeout := 30 } TOPICS 1 [(0, goodTraceMsg)]
      1 goodTraceMsg [] (some sampleTrace) rfl rfl (by decide) (by decide) rfl with
  | ⟨s1, hloop, hc, hs, hp, _, _⟩ => ⟨s1, hloop, hc, hs, hp⟩

/-- C4 amended: at every point during a run, the sum of the accountant's
per-topic counts equals the number of messages accepted by the loop (the
running count); the number of messages dispatched to an analyzer is at
most that (a message whose decoded value is falsy is counted but not
analyzed — see the counterexample); and each accepted message is analyzed
at most once (the dispatch records are pairwise distinct). -/
theorem c4_amended :
    ∀ (cfg : Config) (topics : List String) (evs : List SrcEvent),
      ∀ s' ∈ loopStates cfg (initState topics) evs,
        sumCounts s' = s'.count ∧
        s'.dispatched.length ≤ s'.count ∧
        s'.dispatched.Nodup := by
  intro cfg topics evs s' hs'
  obtain ⟨h1, h2, h3, -⟩ := inv_loopStates evs (initState topics) (inv_initState topics) s' hs'
  exact ⟨h1, h2, h3.imp (fun hij => ne_of_gt hij)⟩

/-- C4 witness: the invariant instantiated on a concrete run that accepts
one well-formed trace message. -/
theorem c4_witness :
    (consumeLoop defaultConfig (initState TOPICS) [SrcEvent.msg 1 goodTraceMsg]).1
      ∈ loopStates defaultConfig (initState TOPICS) [SrcEvent.msg 1 goodTraceMsg] ∧
    sumCounts (consumeLoop defaultConfig (initState TOPICS) [SrcEvent.msg 1 goodTraceMsg]).1
      = (consumeLoop defaultConfig (initState TOPICS) [SrcEvent.msg 1 goodTraceMsg]).1.count ∧
    (consumeLoop defaultConfig (initState TOPICS) [SrcEvent.msg 1 goodTraceMsg]).1.dispatched.Nodup := by
  have hm := @consumeLoop_mem_loopStates defaultConfig
    [SrcEvent.msg 1 goodTraceMsg] (initState TOPICS)
  obtain ⟨h1, -, h3⟩ :=
    c4_amended defaultConfig TOPICS [SrcEvent.msg 1 goodTraceMsg] _ hm
  exact ⟨hm, h1, h3⟩

/-- C7 (confirmed): if the connection succeeded, the consumption summary
is produced on every exit path.  Whenever the loop stops — for any reason,
including a timeout, the message bound, a user interrupt or a source
error — the `finally` block emits the report built from the per-topic
counts gathered so far; and any run containing an interrupt or broker
error event definitely stops.  The only run producing no report is one
whose blocking pull never returns. -/
theorem c7_thm :
    ∀ (cfg : Config) (topics : List String) (evs : List SrcEvent),
      (∀ (s : ConsumerState) (rsn : StopReason),
        consumeLoop cfg (initState topics) evs = (s, some rsn) →
        consume_messages cfg topics evs = some (print_summary s.counts, rsn)) ∧
      ((∃ e ∈ evs, e.isMsg = false) → (consume_messages cfg topics evs).isSome = true) := by
  intro cfg topics evs
  constructor
  · intro s rsn h
    simp only [consume_messages, h]
  · intro h
    have := @consumeLoop_stops_of_nonMsg cfg evs (initState topics) h
    simp only [consume_messages]
    cases hloop : consumeLoop cfg (initState topics) evs with
    | mk s o =>
        rw [hloop] at this
        cases o with
        | none => simp at this
        | some r => simp

/-- C7 witness: a run interrupted by the user before any message still
produces a report. -/
theorem c7_witness :
    (consume_messages defaultConfig TOPICS [SrcEvent.interrupt]).isSome = true :=
  (c7_thm defaultConfig TOPICS [SrcEvent.interrupt]).2
    ⟨SrcEvent.interrupt, List.mem_singleton.mpr rfl, rfl⟩

/-- C10 (confirmed): the loop pulls a message before any bound check.
First conjunct: whenever a run stops at a bound (timeout or message
limit), the final state has pulled exactly one more message than it
counted — the triggering message left the source but was never counted —
and its dispatch records all refer to earlier accepted messages, so it was
never analyzed.  Second conjunct: with `maxMessages ≤ 0`, or with
`timeout ≤ 0` and the pull returning at a positive instant (wall-clock
time strictly advances across a blocking pull), an available message is
still pulled (`pulled = 1`) but nothing is counted, accounted or
analyzed. -/
theorem c10_thm :
    ∀ (cfg : Config) (topics : List String),
      (∀ (evs : List SrcEvent) (s' : ConsumerState) (rsn : StopReason),
        consumeLoop cfg (initState topics) evs = (s', some rsn) →
        rsn = .timeoutReached ∨ rsn = .maxMessagesReached →
        s'.pulled = s'.count + 1 ∧ ∀ i ∈ s'.dispatched, i ≤ s'.count) ∧
      (∀ (t : Nat) (m : TMsg) (rest : List SrcEvent),
        cfg.maxMessages ≤ 0 ∨ (cfg.timeout ≤ 0 ∧ 1 ≤ t) →
        ∃ (s' : ConsumerState) (rsn : StopReason),
          consumeLoop cfg (initState topics) (SrcEvent.msg t m :: rest) = (s', some rsn) ∧
          s'.count = 0 ∧ sumCounts s' = 0 ∧ s'.dispatched = [] ∧ s'.pulled = 1) := by
  intro cfg topics
  constructor
  · intro evs s' rsn hloop hr
    have hpulled : s'.pulled = s'.count + 1 :=
      consumeLoop_pulled evs (initState topics) s' rsn rfl hloop hr
    have hmem : s' ∈ loopStates cfg (initState topics) evs := by
      have := @consumeLoop_mem_loopStates cfg evs (initState topics)
      rwa [hloop] at this
    obtain ⟨-, -, -, h4⟩ :=
      inv_loopStates evs (initState topics) (inv_initState topics) s' hmem
    exact ⟨hpulled, fun i hi => (h4 i hi).2⟩
  · intro t m rest hcase
    have hstate : ((initState topics).count : Int) = 0 := by simp [initState]
    cases hdes : value_deserializer m.raw with
    | error err =>
        refine ⟨{ initState topics with pulled := (initState topics).pulled + 1 },
          .errored, ?_, ?_, ?_, ?_, ?_⟩
        · simp only [consumeLoop, stepEvent, hdes]
        · simp [initState]
        · exact sumCounts_initState topics
        · simp [initState]
        · simp [initState]
    | ok value =>
        by_cases ht : (t : Int) > cfg.timeout
        · refine ⟨{ initState topics with pulled := (initState topics).pulled + 1 },
            .timeoutReached, ?_, ?_, ?_, ?_, ?_⟩
          · simp only [consumeLoop, stepEvent, hdes]
            rw [if_pos ht]
          · simp [initState]
          · exact sumCounts_initState topics
          · simp [initState]
          · simp [initState]
        · have hmax : cfg.maxMessages ≤ 0 := by
            rcases hcase with hm | ⟨htt, h1t⟩
            · exact hm
            · exfalso
              apply ht
              have : (1 : Int) ≤ (t : Int) := by exact_mod_cast h1t
              omega
          refine ⟨{ initState topics with pulled := (initState topics).pulled + 1 },
            .maxMessagesReached, ?_, ?_, ?_, ?_, ?_⟩
          · simp only [consumeLoop, stepEvent, hdes]
            rw [if_neg ht, if_pos (by simp [initState]; omega)]
          · simp [initState]
          · exact sumCounts_initState topics
          · simp [initState]
          · simp [initState]

/-- C10 witness: a concrete run with `maxMessages = 0` pulls the available
message without counting or analyzing it. -/
theorem c10_witness :
    (consumeLoop { maxMessages := 0, timeout := 30 } (initState TOPICS)
        [SrcEvent.msg 1 goodTraceMsg]).1.count = 0 ∧
    (consumeLoop { maxMessages := 0, timeout := 30 } (initState TOPICS)
        [SrcEvent.msg 1 goodTraceMsg]).1.pulled = 1 := by
  obtain ⟨s', rsn, heq, hc, -, -, hp⟩ :=
    (c10_thm { maxMessages := 0, timeout := 30 } TOPICS).2 1 goodTraceMsg []
      (Or.inl (by decide))
  rw [heq]
  exact ⟨hc, hp⟩

end Telemorph

